import Mathlib

/-!
Verification of the go-esni ESNI record codec.

This file gives a shallow embedding of the repository's binary codec layer
(`keys.go`, `entry.go`, `ciphers.go`, `extension.go`, `extensions.go`,
`versions.go`) and settles the frozen claims about it.

Modelling conventions:
* Go byte slices are `List Nat` whose elements are bytes (< 256); all
  values the embedded marshallers emit are reduced modulo 256.
* Machine-integer arithmetic (`uint16`, `uint32`, `uint64`) is `Nat`
  arithmetic with explicit `% 2^w` where Go would wrap.
* Fallible Go code returns `Result α`; a Go runtime panic (out-of-range
  index or slice bound) is the distinguished value `Result.panic`.
* `errors.Wrap(err, ctx)` / `errors.Wrapf` is `Err.wrap ctx err`;
  `errors.New s` and package-level sentinel errors are `Err.msg s`;
  `io.EOF` and `io.ErrUnexpectedEOF` are `Err.eof` / `Err.unexpectedEOF`.
* `time.Time` fields are represented by the `uint64` Unix-seconds value
  that is all the codec reads and writes of them.
* Loops that walk a cursor over a buffer are embedded as fuel-indexed
  recursions over the remaining suffix; every iteration consumes at least
  one byte, so the entry points' fuel (the buffer length) always suffices
  and the `fuelExhausted` branch is unreachable from them.
-/

namespace ESNI

/-! ### Byte-level helpers (encoding/binary, big endian) -/

/-- `binary.BigEndian.PutUint16`: the two big-endian bytes of `v mod 2^16`. -/
def u16be (v : Nat) : List Nat := [v / 256 % 256, v % 256]

/-- `binary.BigEndian.PutUint32`: the four big-endian bytes of `v mod 2^32`. -/
def u32be (v : Nat) : List Nat :=
  [v / 16777216 % 256, v / 65536 % 256, v / 256 % 256, v % 256]

/-- `binary.BigEndian.PutUint64`: the eight big-endian bytes of `v mod 2^64`. -/
def u64be (v : Nat) : List Nat :=
  [v / 72057594037927936 % 256, v / 281474976710656 % 256,
   v / 1099511627776 % 256, v / 4294967296 % 256,
   v / 16777216 % 256, v / 65536 % 256, v / 256 % 256, v % 256]

/-- Big-endian value of a byte list. -/
def beVal (bs : List Nat) : Nat := bs.foldl (fun a b => a * 256 + b) 0

/-- `binary.BigEndian.Uint16 b` for a buffer known to hold at least two
bytes (`b[0]<<8 | b[1]`). -/
def readU16 (s : List Nat) : Nat := 256 * s.headD 0 + s.tail.headD 0

/-! ### Errors and results -/

/-- Go error values as the codec builds them: sentinel/`errors.New`
messages, the two `io` EOF errors, and `errors.Wrap` context layers.
`fuelExhausted` is a modelling artifact, unreachable from the top-level
entry points (see the loop lemmas below). -/
inductive Err where
  | eof : Err
  | unexpectedEOF : Err
  | msg (s : String) : Err
  | wrap (ctx : String) (e : Err) : Err
  | fuelExhausted : Err
deriving DecidableEq, Repr

/-- Outcome of a fallible Go operation: a value, a returned error, or a
runtime panic. -/
inductive Result (α : Type) where
  | ok (a : α) : Result α
  | err (e : Err) : Result α
  | panic : Result α
deriving DecidableEq, Repr

def Result.bind {α β : Type} : Result α → (α → Result β) → Result β
  | .ok a, f => f a
  | .err e, _ => .err e
  | .panic, _ => .panic

instance : Monad Result where
  pure := Result.ok
  bind := Result.bind

def Result.map {α β : Type} (f : α → β) : Result α → Result β
  | .ok a => .ok (f a)
  | .err e => .err e
  | .panic => .panic

/-- `errors.Wrap(err, ctx)` applied to a call's outcome: errors gain a
context layer, successes and panics pass through. -/
def Result.context {α : Type} (ctx : String) : Result α → Result α
  | .ok a => .ok a
  | .err e => .err (.wrap ctx e)
  | .panic => .panic

/-- `io.ReadFull`-style exact read of `n` bytes from a stream, as
`binary.Read` performs for fixed-size values: `io.EOF` when nothing is
available, `io.ErrUnexpectedEOF` on a short read. -/
def readBE (n : Nat) (s : List Nat) : Result (Nat × List Nat) :=
  if s.isEmpty then .err .eof
  else if s.length < n then .err .unexpectedEOF
  else .ok (beVal (s.take n), s.drop n)

/-! ### SHA-256 (crypto/sha256), executable -/

/-- Rotate the 32-bit word `x` right by `n` positions, as unbounded `Nat` arithmetic reduced mod `2^32`. -/
def rotr (n x : Nat) : Nat := ((x >>> n) ||| (x <<< (32 - n))) % 4294967296

def sha256K : List Nat :=
  [1116352408, 1899447441, 3049323471, 3921009573,
   961987163, 1508970993, 2453635748, 2870763221,
   3624381080, 310598401, 607225278, 1426881987,
   1925078388, 2162078206, 2614888103, 3248222580,
   3835390401, 4022224774, 264347078, 604807628,
   770255983, 1249150122, 1555081692, 1996064986,
   2554220882, 2821834349, 2952996808, 3210313671,
   3336571891, 3584528711, 113926993, 338241895,
   666307205, 773529912, 1294757372, 1396182291,
   1695183700, 1986661051, 2177026350, 2456956037,
   2730485921, 2820302411, 3259730800, 3345764771,
   3516065817, 3600352804, 4094571909, 275423344,
   430227734, 506948616, 659060556, 883997877,
   958139571, 1322822218, 1537002063, 1747873779,
   1955562222, 2024104815, 2227730452, 2361852424,
   2428436474, 2756734187, 3204031479, 3329325298]

structure Hash8 where
  a : Nat
  b : Nat
  c : Nat
  d : Nat
  e : Nat
  f : Nat
  g : Nat
  h : Nat

def sha256H0 : Hash8 :=
  ⟨1779033703, 3144134277, 1013904242, 2773480762,
   1359893119, 2600822924, 528734635, 1541459225⟩

/-- Next word of the message schedule, from the words built so far. -/
def wNext (w : List Nat) : Nat :=
  let i := w.length
  let x15 := w.getD (i - 15) 0
  let x2 := w.getD (i - 2) 0
  let s0 := (rotr 7 x15) ^^^ (rotr 18 x15) ^^^ (x15 >>> 3)
  let s1 := (rotr 17 x2) ^^^ (rotr 19 x2) ^^^ (x2 >>> 10)
  (w.getD (i - 16) 0 + s0 + w.getD (i - 7) 0 + s1) % 4294967296

def extendW : Nat → List Nat → List Nat
  | 0, w => w
  | n + 1, w => extendW n (w ++ [wNext w])

def compressStep (st : Hash8) (kw : Nat × Nat) : Hash8 :=
  let S1 := (rotr 6 st.e) ^^^ (rotr 11 st.e) ^^^ (rotr 25 st.e)
  let ch := (st.e &&& st.f) ^^^ ((st.e ^^^ 4294967295) &&& st.g)
  let t1 := (st.h + S1 + ch + kw.1 + kw.2) % 4294967296
  let S0 := (rotr 2 st.a) ^^^ (rotr 13 st.a) ^^^ (rotr 22 st.a)
  let mj := (st.a &&& st.b) ^^^ (st.a &&& st.c) ^^^ (st.b &&& st.c)
  let t2 := (S0 + mj) % 4294967296
  ⟨(t1 + t2) % 4294967296, st.a, st.b, st.c,
   (st.d + t1) % 4294967296, st.e, st.f, st.g⟩

/-- Group a byte list into 32-bit big-endian words. -/
def bytesToWords : List Nat → List Nat
  | b0 :: b1 :: b2 :: b3 :: rest =>
      (((b0 * 256 + b1) * 256 + b2) * 256 + b3) :: bytesToWords rest
  | _ => []

def processBlock (hv : Hash8) (block : List Nat) : Hash8 :=
  let w := extendW 48 (bytesToWords block)
  let st := (sha256K.zip w).foldl compressStep hv
  ⟨(hv.a + st.a) % 4294967296, (hv.b + st.b) % 4294967296,
   (hv.c + st.c) % 4294967296, (hv.d + st.d) % 4294967296,
   (hv.e + st.e) % 4294967296, (hv.f + st.f) % 4294967296,
   (hv.g + st.g) % 4294967296, (hv.h + st.h) % 4294967296⟩

def chunks64 : Nat → List Nat → List (List Nat)
  | 0, _ => []
  | n + 1, s => s.take 64 :: chunks64 n (s.drop 64)

/-- SHA-256 padding: `0x80`, zeros to 56 mod 64, 8-byte bit length. -/
def sha256pad (msg : List Nat) : List Nat :=
  msg ++ [128] ++ List.replicate ((64 - (msg.length + 9) % 64) % 64) 0
      ++ u64be (8 * msg.length)

/-- `sha256.Sum256`: the 32-byte SHA-256 digest of a byte list. -/
def sha256 (msg : List Nat) : List Nat :=
  let p := sha256pad msg
  let hv := (chunks64 (p.length / 64) p).foldl processBlock sha256H0
  u32be hv.a ++ u32be hv.b ++ u32be hv.c ++ u32be hv.d ++
  u32be hv.e ++ u32be hv.f ++ u32be hv.g ++ u32be hv.h

/-! ### versions.go -/

def VersionDraft01 : Nat := 0xff01

def VersionDraft03 : Nat := 0xff02

/-! ### entry.go — key share entries and their list -/

/-- `KeyShareEntry`: a `Group` identifier (uint16) and the raw public-key
bytes. -/
structure KeyShareEntry where
  group : Nat
  keyExchange : List Nat
deriving DecidableEq, Repr

/-- `KeyShareEntry.Size`: `uint16(len(entry.KeyExchange)) + 4`, in wrapping
uint16 arithmetic. -/
def KeyShareEntry.Size (e : KeyShareEntry) : Nat :=
  (e.keyExchange.length % 65536 + 4) % 65536

/-- `KeyShareEntry.MarshalBinary`: a buffer of `Size()` bytes holding the
group, the key length, and the key bytes.  When `Size()` wraps below 4 the
header stores (`data[0:2]` / `data[2:4]`) overrun the buffer and panic. -/
def KeyShareEntry.MarshalBinary (e : KeyShareEntry) : Result (List Nat) :=
  let size := e.Size
  if size < 4 then .panic
  else .ok (u16be e.group ++ u16be e.keyExchange.length ++
            (e.keyExchange ++ List.replicate size 0).take (size - 4))

/-- `KeyShareEntry.UnmarshalBinary`. -/
def KeyShareEntry.UnmarshalBinary (data : List Nat) : Result KeyShareEntry :=
  if data.length < 4 then
    .err (.wrap "buffer is too small for key share entry" .unexpectedEOF)
  else
    let keyLen := readU16 (data.drop 2)
    if data.length < keyLen + 4 then
      .err (.wrap "buffer is too small for key exchange" .unexpectedEOF)
    else .ok ⟨readU16 data, (data.drop 4).take keyLen⟩

/-- `KeyShareEntryList.Size`: wrapping uint16 sum of the entry sizes. -/
def KeyShareEntryList.Size (l : List KeyShareEntry) : Nat :=
  l.foldl (fun s e => (s + e.Size) % 65536) 0

/-- `KeyShareEntryList.Contains`: does the list already hold an entry of
the same group? -/
def KeyShareEntryList.Contains (l : List KeyShareEntry) (e : KeyShareEntry) : Bool :=
  l.any (fun x => x.group == e.group)

/-- Go's `copy(buf[pos:], src)` on a fixed-length buffer: writes
`min (src.length) (buf.length - pos)` bytes at `pos`. -/
def copyInto (buf : List Nat) (pos : Nat) (src : List Nat) : List Nat :=
  buf.take pos ++ src.take (buf.length - pos) ++ buf.drop (pos + src.length)

/-- The write loop of `KeyShareEntryList.MarshalBinary`: each entry is
marshalled and copied into the pre-allocated buffer at the running
position. -/
def ksMarshalGo : List KeyShareEntry → List Nat → Nat → Result (List Nat)
  | [], buf, _ => .ok buf
  | e :: rest, buf, pos =>
    match e.MarshalBinary with
    | .panic => .panic
    | .err er => .err (.wrap "marshal key share entry" er)
    | .ok bs => ksMarshalGo rest (copyInto buf pos bs)
        (pos + min bs.length (buf.length - pos))

/-- `KeyShareEntryList.MarshalBinary`. -/
def KeyShareEntryList.MarshalBinary (l : List KeyShareEntry) : Result (List Nat) :=
  ksMarshalGo l (List.replicate (KeyShareEntryList.Size l) 0) 0

/-- The parse loop of `KeyShareEntryList.UnmarshalBinary`: parse an entry
at the cursor, reject duplicates of an already-collected group, then
advance the cursor by `entry.Size() + 1` — one byte more than the entry's
wire size. -/
def ksLoop : Nat → List KeyShareEntry → List Nat → Result (List KeyShareEntry)
  | _, acc, [] => .ok acc
  | 0, _, _ :: _ => .err .fuelExhausted
  | fuel + 1, acc, b :: rest =>
    match KeyShareEntry.UnmarshalBinary (b :: rest) with
    | .err e => .err (.wrap "unmarshal key share entry" e)
    | .panic => .panic
    | .ok entry =>
      if KeyShareEntryList.Contains acc entry then
        .err (.msg "duplicate key share group")
      else ksLoop fuel (acc ++ [entry]) ((b :: rest).drop (entry.Size + 1))

/-- `KeyShareEntryList.UnmarshalBinary`, appending to the receiver's
current contents (`acc`). -/
def KeyShareEntryList.UnmarshalBinary (acc : List KeyShareEntry)
    (data : List Nat) : Result (List KeyShareEntry) :=
  ksLoop data.length acc data

/-! ### extensions.go — the address set extension -/

/-- `net.IP.To4`: a 4-byte address is returned as is; a 16-byte
IPv4-in-IPv6 address (ten zero bytes then `0xff 0xff`) is shortened to its
last four bytes; anything else yields none. -/
def ipTo4 (ip : List Nat) : Option (List Nat) :=
  if ip.length = 4 then some ip
  else if ip.length == 16 && (ip.take 10).all (· == 0)
       && ip.getD 10 0 == 255 && ip.getD 11 0 == 255 then
    some (ip.drop 12)
  else none

/-- `AddressSet`: a list of `net.IP` byte slices. -/
structure AddressSet where
  addresses : List (List Nat)
deriving DecidableEq, Repr

def ExtensionTypeAddressSet : Nat := 0x1001

/-- `AddressSet.Size`: per address one tag byte plus 4 (IPv4) or 16 bytes,
accumulated in wrapping uint16 arithmetic. -/
def AddressSet.Size (s : AddressSet) : Nat :=
  s.addresses.foldl
    (fun acc a => match ipTo4 a with
      | some _ => (acc + 1 + 4) % 65536
      | none => (acc + 1 + 16) % 65536) 0

/-- `AddressSet.MarshalBinary`: the buffer is created as
`bytes.NewBuffer(make([]byte, Size()))`, so its initial `Size()` zero
bytes remain in front of the appended tag/address pairs. -/
def AddressSet.MarshalBinary (s : AddressSet) : Result (List Nat) :=
  .ok (List.replicate s.Size 0 ++
    (s.addresses.map (fun a => match ipTo4 a with
      | some ip4 => 4 :: ip4
      | none => 6 :: a)).flatten)

/-- The parse loop of `AddressSet.UnmarshalBinary`: a tag byte of 4 (6)
takes the next 4 (16) bytes — zero-padded via `copy` into a fresh
zero-filled address when fewer remain — and advances past them. -/
def asLoop : Nat → List (List Nat) → List Nat → Result (List (List Nat))
  | _, acc, [] => .ok acc
  | 0, _, _ :: _ => .err .fuelExhausted
  | fuel + 1, acc, t :: rest =>
    if t = 4 then
      asLoop fuel (acc ++ [(rest.take 4 ++ List.replicate 4 0).take 4]) (rest.drop 4)
    else if t = 6 then
      asLoop fuel (acc ++ [(rest.take 16 ++ List.replicate 16 0).take 16]) (rest.drop 16)
    else .err (.msg "unsupported address type")

/-- `AddressSet.UnmarshalBinary`, appending to the receiver's current
addresses. -/
def AddressSet.UnmarshalBinary (s : AddressSet) (data : List Nat) : Result AddressSet :=
  (asLoop data.length s.addresses data).map AddressSet.mk

/-! ### extension.go — the extension interface and list -/

/-- The `Extension` interface.  The only implementation in the repository
is `AddressSet`, which is also the only type the registry holds after
package initialisation (`init` in extensions.go). -/
inductive Extension where
  | addressSet (s : AddressSet) : Extension
deriving DecidableEq, Repr

/-- `Extension.Type()` (`Type` is reserved in Lean). -/
def Extension.typeId : Extension → Nat
  | .addressSet _ => ExtensionTypeAddressSet

def Extension.Size : Extension → Nat
  | .addressSet s => s.Size

def Extension.MarshalBinary : Extension → Result (List Nat)
  | .addressSet s => s.MarshalBinary

def Extension.UnmarshalBinary : Extension → List Nat → Result Extension
  | .addressSet s, data => (s.UnmarshalBinary data).map Extension.addressSet

/-- `ExtensionType.Generator()` over the registry state established by the
package `init` functions: only the address set type is registered. -/
def generator (t : Nat) : Option Extension :=
  if t = ExtensionTypeAddressSet then some (.addressSet ⟨[]⟩) else none

/-- `ExtensionList.Size`: wrapping uint16 sum of 2 (type tag) plus payload
size per extension. -/
def ExtensionList.Size (l : List Extension) : Nat :=
  l.foldl (fun s e => (s + 2 + e.Size) % 65536) 0

/-- The bytes the write loop of `ExtensionList.MarshalBinary` appends to
its buffer: per extension the 2-byte type tag then its marshalled form. -/
def extsMarshalParts : List Extension → Result (List Nat)
  | [] => .ok []
  | e :: rest => do
    let bs ← Result.context "marshal extension" e.MarshalBinary
    let tail ← extsMarshalParts rest
    pure (u16be e.typeId ++ bs ++ tail)

/-- `ExtensionList.MarshalBinary`: the buffer is created as
`bytes.NewBuffer(make([]byte, Size()))`, so its initial `Size()` zero
bytes remain in front of the appended per-extension data. -/
def ExtensionList.MarshalBinary (l : List Extension) : Result (List Nat) := do
  let parts ← extsMarshalParts l
  pure (List.replicate (ExtensionList.Size l) 0 ++ parts)

/-- The parse loop of `ExtensionList.UnmarshalBinary`: read a 2-byte type
(panicking when a single byte remains, as `binary.BigEndian.Uint16`
would), look it up in the registry, let the fresh extension parse the
whole remaining suffix, then advance by its reported size plus 2. -/
def extLoop : Nat → List Extension → List Nat → Result (List Extension)
  | _, acc, [] => .ok acc
  | _, _, [_] => .panic
  | 0, _, _ :: _ :: _ => .err .fuelExhausted
  | fuel + 1, acc, t1 :: t2 :: rest =>
    let extType := 256 * t1 + t2
    match generator extType with
    | none => .err (.wrap ("extension_type(" ++ toString extType ++ ")")
        (.msg "unsupported extension type"))
    | some ext =>
      match ext.UnmarshalBinary rest with
      | .err e => .err (.wrap "unmarshal extension" e)
      | .panic => .panic
      | .ok ext2 =>
        extLoop fuel (acc ++ [ext2]) ((t1 :: t2 :: rest).drop (ext2.Size + 2))

/-- `ExtensionList.UnmarshalBinary`, appending to the receiver's current
contents. -/
def ExtensionList.UnmarshalBinary (acc : List Extension)
    (data : List Nat) : Result (List Extension) :=
  extLoop data.length acc data

/-! ### keys.go — the record codec -/

/-- The `Keys` record.  `notBefore`/`notAfter` hold the `uint64`
Unix-seconds value the codec writes and reads for the `time.Time`
fields. -/
structure Keys where
  version : Nat
  checksum : List Nat
  publicName : List Nat
  keys : List KeyShareEntry
  cipherSuites : List Nat
  paddedLength : Nat
  notBefore : Nat
  notAfter : Nat
  extensions : List Extension
deriving DecidableEq, Repr

/-- The zero `Keys` value (`new(esni.Keys)`). -/
def emptyKeys : Keys := ⟨0, [0, 0, 0, 0], [], [], [], 0, 0, 0, []⟩

/-- `Keys.marshalPublicName`: nothing before draft 03; otherwise a 1-byte
length prefix and the name, rejecting empty and oversized names. -/
def Keys.marshalPublicName (k : Keys) : Result (List Nat) :=
  if k.version < VersionDraft03 then .ok []
  else if k.publicName.length = 0 then .err (.msg "public name is empty")
  else if 255 < k.publicName.length then .err (.msg "public name is too large")
  else .ok (k.publicName.length % 256 :: k.publicName)

/-- `Keys.marshalKeyShareList`: 2-byte size prefix then the marshalled
list; empty lists are rejected. -/
def Keys.marshalKeyShareList (k : Keys) : Result (List Nat) := do
  if k.keys.length = 0 then .err (.msg "key share list is empty")
  else do
    let listData ← KeyShareEntryList.MarshalBinary k.keys
    pure (u16be (KeyShareEntryList.Size k.keys) ++ listData)

/-- `Keys.marshalCipherSuites`: 2-byte size prefix (`uint16(2*count)`)
then each suite as two bytes. -/
def Keys.marshalCipherSuites (k : Keys) : Result (List Nat) :=
  .ok (u16be (k.cipherSuites.length * 2) ++ (k.cipherSuites.map u16be).flatten)

/-- `Keys.marshalValidityPeriod`: not-before and not-after as 8-byte
big-endian values. -/
def Keys.marshalValidityPeriod (k : Keys) : Result (List Nat) :=
  .ok (u64be k.notBefore ++ u64be k.notAfter)

/-- `Keys.marshalExtensions`: 2-byte size prefix, then (only for a
non-empty list) the marshalled extension list. -/
def Keys.marshalExtensions (k : Keys) : Result (List Nat) := do
  if k.extensions.length = 0 then pure (u16be (ExtensionList.Size k.extensions))
  else do
    let extsData ← ExtensionList.MarshalBinary k.extensions
    pure (u16be (ExtensionList.Size k.extensions) ++ extsData)

/-- `Keys.MarshalBinary`: serialize every section with a zeroed checksum
placeholder, then splice the first four digest bytes into bytes 2–5. -/
def Keys.MarshalBinary (k : Keys) : Result (List Nat) := do
  let pn ← Result.context "marshal public name" k.marshalPublicName
  let ks ← Result.context "marshal key share list" k.marshalKeyShareList
  let cs ← Result.context "marshal cipher suite list" k.marshalCipherSuites
  let vp ← Result.context "marshal validity period" k.marshalValidityPeriod
  let ex ← Result.context "marshal extensions list" k.marshalExtensions
  let final := u16be k.version ++ [0, 0, 0, 0] ++ pn ++ ks ++ cs ++
    u16be k.paddedLength ++ vp ++ ex
  let sum := sha256 final
  pure (final.take 2 ++ sum.take 4 ++ final.drop 6)

/-- `Keys.unmarshalPublicName` on the remaining stream: skipped before
draft 03 (the field keeps its prior value); otherwise read the length
byte, reject zero, and read the name — `bytes.Reader.Read` zero-pads a
short read without reporting an error and only fails (`io.EOF`) when
nothing is available. -/
def Keys.unmarshalPublicName (k : Keys) (s : List Nat) : Result (Keys × List Nat) :=
  if k.version < VersionDraft03 then .ok (k, s)
  else
    match s with
    | [] => .err (.wrap "read length" .eof)
    | nameLength :: rest =>
      if nameLength = 0 then .err (.msg "public name is empty")
      else if rest.isEmpty then .err .eof
      else .ok ({k with publicName :=
          (rest.take nameLength ++ List.replicate nameLength 0).take nameLength},
        rest.drop nameLength)

/-- `Keys.unmarshalKeyShareList`: read the 2-byte size, reject zero, read
that many bytes (`bytes.Reader.Read` zero-pads a short read), and parse
them as a fresh entry list. -/
def Keys.unmarshalKeyShareList (k : Keys) (s : List Nat) : Result (Keys × List Nat) := do
  let (listLen, s) ← Result.context "read key share list size" (readBE 2 s)
  if listLen = 0 then .err (.msg "key share list is empty")
  else if s.isEmpty then .err (.wrap "read key share list" .eof)
  else
    match KeyShareEntryList.UnmarshalBinary []
        ((s.take listLen ++ List.replicate listLen 0).take listLen) with
    | .ok l => .ok ({k with keys := l}, s.drop listLen)
    | .err e => .err e
    | .panic => .panic

/-- The read loop of `Keys.unmarshalCipherSuites`: `n` suites of two bytes
each, the `i`-th failure labelled with its index. -/
def readSuites : Nat → Nat → List Nat → Result (List Nat × List Nat)
  | 0, _, s => .ok ([], s)
  | n + 1, i, s => do
    let (v, s) ← Result.context ("read cipher suite " ++ toString i) (readBE 2 s)
    let (rest, s) ← readSuites n (i + 1) s
    pure (v :: rest, s)

/-- `Keys.unmarshalCipherSuites`: read the 2-byte byte length, reject odd
values, then read `length / 2` suites. -/
def Keys.unmarshalCipherSuites (k : Keys) (s : List Nat) : Result (Keys × List Nat) := do
  let (suitesLen, s) ← Result.context "read cipher suite list size" (readBE 2 s)
  if suitesLen % 2 ≠ 0 then .err (.msg "invalid cipher suite list size")
  else do
    let (suites, s) ← readSuites (suitesLen / 2) 0 s
    pure ({k with cipherSuites := suites}, s)

/-- `Keys.unmarshalValidityPeriod`: two 8-byte big-endian timestamps. -/
def Keys.unmarshalValidityPeriod (k : Keys) (s : List Nat) : Result (Keys × List Nat) := do
  let (nb, s) ← Result.context "read not before" (readBE 8 s)
  let (na, s) ← Result.context "read not after" (readBE 8 s)
  pure ({k with notBefore := nb, notAfter := na}, s)

/-- `Keys.unmarshalExtensions`: read the 2-byte size; zero means done
(the field keeps its prior value); otherwise read that many bytes
(`bytes.Reader.Read` zero-pads a short read) and parse them as a fresh
extension list. -/
def Keys.unmarshalExtensions (k : Keys) (s : List Nat) : Result (Keys × List Nat) := do
  let (extsLen, s) ← Result.context "read extensions list length" (readBE 2 s)
  if extsLen = 0 then .ok (k, s)
  else if s.isEmpty then .err (.wrap "read extensions list" .eof)
  else
    match ExtensionList.UnmarshalBinary []
        ((s.take extsLen ++ List.replicate extsLen 0).take extsLen) with
    | .ok l => .ok ({k with extensions := l}, s.drop extsLen)
    | .err e => .err e
    | .panic => .panic

/-- The section-parsing tail of `Keys.UnmarshalBinary`, run on the buffer
after its checksum bytes were zeroed (`b2`): verify the checksum, then
parse the sections in order from byte 6 on.  Slicing `b[6:]` panics when
the (checksum-matching) buffer is shorter than six bytes. -/
def Keys.unmarshalBody (k : Keys) (b2 : List Nat) : Result Keys :=
  if k.checksum ≠ (sha256 b2).take 4 then
    .err (.msg "calculated checksum did not match received checksum")
  else if b2.length < 6 then .panic
  else
    (do
      let (k, s) ← Result.context "unmarshal public name"
        (k.unmarshalPublicName (b2.drop 6))
      let (k, s) ← Result.context "unmarshal key share list"
        (k.unmarshalKeyShareList s)
      let (k, s) ← Result.context "unmarshal cipher suite list"
        (k.unmarshalCipherSuites s)
      let (pl, s) ← Result.context "read padded length" (readBE 2 s)
      let k := {k with paddedLength := pl}
      let (k, s) ← Result.context "unmarshal validity period"
        (k.unmarshalValidityPeriod s)
      let (k, _) ← Result.context "unmarshal extensions list"
        (k.unmarshalExtensions s)
      pure k : Result Keys)

/-- `Keys.UnmarshalBinary`: reading the version panics on fewer than two
bytes; the transmitted checksum is copied out of bytes 2–5 and those
bytes of the *caller's* buffer are zeroed in place (`copy(b[2:], ...)`).
The result pairs the parse outcome with the caller's buffer as the call
leaves it. -/
def Keys.UnmarshalBinary (k : Keys) (b : List Nat) : Result Keys × List Nat :=
  if b.length < 2 then (.panic, b)
  else
    let c := min 4 (b.length - 2)
    let cksum := (b.drop 2).take 4 ++ k.checksum.drop c
    let b2 := b.take 2 ++ List.replicate c 0 ++ b.drop 6
    (Keys.unmarshalBody {k with version := readU16 b, checksum := cksum} b2, b2)

/-- `decode(encode r)` with a fresh zero `Keys` receiver on the decode
side, as the repository's own demo command uses the codec. -/
def roundTrip (r : Keys) : Result Keys :=
  match r.MarshalBinary with
  | .ok bs => (Keys.UnmarshalBinary emptyKeys bs).1
  | .err e => .err e
  | .panic => .panic

/-! ### Concrete inputs used by the claims -/

/-- A `Keys` record satisfying the data-model invariants: draft-01
version (no hostname section), two key-share entries with distinct
groups, empty suite and extension lists. -/
def c1rec : Keys := ⟨0xff01, [0, 0, 0, 0], [], [⟨0x17, []⟩, ⟨0x1d, []⟩], [], 0, 0, 0, []⟩

/-- An extension list holding one address set with the single IPv4
address 1.2.3.4. -/
def c2ext : Extension := .addressSet ⟨[[1, 2, 3, 4]]⟩

/-- The address set holding 1.2.3.4 and ::1. -/
def c3set : AddressSet := ⟨[[1, 2, 3, 4], [0, 0, 0, 0, 0, 0, 0, 0, 0, 0, 0, 0, 0, 0, 0, 1]]⟩

/-- The 22-byte wire sequence `04 01 02 03 04 06 00*15 01`. -/
def c3seq : List Nat := [4, 1, 2, 3, 4, 6, 0, 0, 0, 0, 0, 0, 0, 0, 0, 0, 0, 0, 0, 0, 0, 1]

/-- A draft-01 record with a (wire-irrelevant) non-empty hostname. -/
def c7k1 : Keys := ⟨0xff01, [0, 0, 0, 0], [97], [⟨0x1d, [1]⟩], [], 0, 0, 0, []⟩

/-- A draft-03 record with an empty hostname. -/
def c7k2 : Keys := ⟨0xff02, [0, 0, 0, 0], [], [⟨0x1d, [1]⟩], [], 0, 0, 0, []⟩

/-- One complete wire group of an address set payload: a family tag and
a full-length address. -/
inductive AddrChunk where
  | v4 (bs : List Nat) : AddrChunk
  | v6 (bs : List Nat) : AddrChunk

/-- The wire bytes of a complete group. -/
def AddrChunk.wire : AddrChunk → List Nat
  | .v4 bs => 4 :: bs
  | .v6 bs => 6 :: bs

/-- The address a complete group decodes to. -/
def AddrChunk.addr : AddrChunk → List Nat
  | .v4 bs => bs
  | .v6 bs => bs

/-- Well-formedness of a group: the address has its family's length. -/
def AddrChunk.WF : AddrChunk → Prop
  | .v4 bs => bs.length = 4
  | .v6 bs => bs.length = 16

/-! ### Helper lemmas -/

@[simp] theorem Result.bind_ok {α β : Type} (a : α) (f : α → Result β) :
    (Result.ok a) >>= f = f a := rfl

@[simp] theorem Result.bind_err {α β : Type} (e : Err) (f : α → Result β) :
    (Result.err e : Result α) >>= f = .err e := rfl

@[simp] theorem Result.bind_panic {α β : Type} (f : α → Result β) :
    (Result.panic : Result α) >>= f = .panic := rfl

@[simp] theorem Result.pure_eq {α : Type} (a : α) : (pure a : Result α) = .ok a := rfl

@[simp] theorem Result.context_ok {α : Type} (c : String) (a : α) :
    Result.context c (.ok a) = .ok a := rfl

@[simp] theorem Result.context_err {α : Type} (c : String) (e : Err) :
    (Result.context c (.err e) : Result α) = .err (.wrap c e) := rfl

theorem readU16_u16be_append (g : Nat) (r : List Nat) (hg : g < 65536) :
    readU16 (u16be g ++ r) = g := by
  simp only [u16be, readU16, List.cons_append, List.nil_append, List.headD_cons,
    List.tail_cons]
  omega

/-- Every key-share entry whose size does not wrap below 4 marshals
successfully, so the list write loop succeeds. -/
theorem ksMarshalGo_ok (l : List KeyShareEntry) (buf : List Nat) (pos : Nat)
    (h : ∀ e ∈ l, e.keyExchange.length ≤ 65531) :
    ∃ bs, ksMarshalGo l buf pos = .ok bs := by
  induction l generalizing buf pos with
  | nil => exact ⟨buf, rfl⟩
  | cons e rest ih =>
    have hsz : ¬ e.Size < 4 := by
      have hl := h e (by simp)
      simp only [KeyShareEntry.Size]
      omega
    simp only [ksMarshalGo, KeyShareEntry.MarshalBinary, if_neg hsz]
    exact ih _ _ (fun x hx => h x (by simp [hx]))

/-- The extension write loop never fails: the only registered extension's
marshaller always succeeds. -/
theorem extsMarshalParts_ok (l : List Extension) :
    ∃ bs, extsMarshalParts l = .ok bs := by
  induction l with
  | nil => exact ⟨[], rfl⟩
  | cons e rest ih =>
    obtain ⟨bs, hbs⟩ := ih
    cases e with
    | addressSet s =>
      simp only [extsMarshalParts, Extension.MarshalBinary, AddressSet.MarshalBinary,
        Result.context_ok, Result.bind_ok, hbs, Result.pure_eq]
      exact ⟨_, rfl⟩

/-- Fuel irrelevance for the address-set parse loop: any fuel at least the
buffer length gives the loop's semantics. -/
theorem asLoop_mono (f1 : Nat) : ∀ (f2 : Nat) (acc : List (List Nat)) (s : List Nat),
    s.length ≤ f1 → s.length ≤ f2 → asLoop f1 acc s = asLoop f2 acc s := by
  induction f1 with
  | zero =>
    intro f2 acc s h1 _
    have : s = [] := List.length_eq_zero.mp (Nat.le_zero.mp h1)
    subst this
    cases f2 <;> rfl
  | succ f ih =>
    intro f2 acc s h1 h2
    cases s with
    | nil => cases f2 <;> rfl
    | cons t rest =>
      cases f2 with
      | zero => simp at h2
      | succ f2 =>
        simp only [asLoop]
        by_cases ht4 : t = 4
        · simp only [if_pos ht4]
          exact ih _ _ _ (by simp at h1 ⊢; omega) (by simp at h2 ⊢; omega)
        · by_cases ht6 : t = 6
          · simp only [if_neg ht4, if_pos ht6]
            exact ih _ _ _ (by simp at h1 ⊢; omega) (by simp at h2 ⊢; omega)
          · simp only [if_neg ht4, if_neg ht6]

/-- One complete well-formed group at the cursor is consumed whole: the
loop appends its address and moves past its wire bytes. -/
theorem asLoop_chunk (c : AddrChunk) (hc : c.WF) (acc : List (List Nat))
    (s : List Nat) (fuel : Nat) (hf : (c.wire ++ s).length ≤ fuel + 1) :
    asLoop (fuel + 1) acc (c.wire ++ s) = asLoop fuel (acc ++ [c.addr]) s := by
  cases c with
  | v4 bs =>
    simp only [AddrChunk.WF] at hc
    have h1 : (bs ++ s).take 4 = bs := by rw [← hc]; exact List.take_left ..
    have h2 : (bs ++ s).drop 4 = s := by rw [← hc]; exact List.drop_left ..
    have h3 : (bs ++ [0, 0, 0, 0]).take 4 = bs := by
      rw [← hc]; exact List.take_left ..
    simp [AddrChunk.wire, AddrChunk.addr, asLoop, h1, h2, h3]
  | v6 bs =>
    simp only [AddrChunk.WF] at hc
    have h1 : (bs ++ s).take 16 = bs := by rw [← hc]; exact List.take_left ..
    have h2 : (bs ++ s).drop 16 = s := by rw [← hc]; exact List.drop_left ..
    have h3 : (bs ++ [0, 0, 0, 0, 0, 0, 0, 0, 0, 0, 0, 0, 0, 0, 0, 0]).take 16 = bs := by
      rw [← hc]; exact List.take_left ..
    simp [AddrChunk.wire, AddrChunk.addr, asLoop, h1, h2, h3]

/-- Any key-share entry whose key-exchange slice has exactly 65532 bytes
has wrapping uint16 size `0`, so its marshaller panics slicing the
zero-length buffer it allocates. -/
theorem entry_marshal_panics_of_len (kx : List Nat) (h : kx.length = 65532) :
    KeyShareEntry.MarshalBinary ⟨29, kx⟩ = .panic := by
  have hsz : KeyShareEntry.Size ⟨29, kx⟩ = 0 := by
    simp [KeyShareEntry.Size, h]
  simp only [KeyShareEntry.MarshalBinary, hsz]
  rfl

/-- A complete-groups prefix followed by a truncated final group: the
loop consumes every complete group, then zero-pads the truncated final
address and terminates successfully. -/
theorem asLoop_truncated_tail (chunks : List AddrChunk) :
    ∀ (acc : List (List Nat)) (fuel t : Nat) (rest : List Nat),
    (∀ c ∈ chunks, c.WF) →
    ((t = 4 ∧ rest.length < 4) ∨ (t = 6 ∧ rest.length < 16)) →
    ((chunks.map AddrChunk.wire).flatten ++ t :: rest).length ≤ fuel →
    asLoop fuel acc ((chunks.map AddrChunk.wire).flatten ++ t :: rest) =
      .ok (acc ++ chunks.map AddrChunk.addr ++
        [(rest ++ List.replicate (if t = 4 then 4 else 16) 0).take
          (if t = 4 then 4 else 16)]) := by
  induction chunks with
  | nil =>
    intro acc fuel t rest _ ht hf
    simp only [List.map_nil, List.flatten_nil, List.nil_append, List.length_cons] at hf ⊢
    cases fuel with
    | zero => omega
    | succ f =>
      rcases ht with ⟨ht, hr⟩ | ⟨ht, hr⟩
      · subst ht
        have htake : rest.take 4 = rest := List.take_of_length_le (by omega)
        have hdrop : rest.drop 4 = [] := List.drop_eq_nil_of_le (by omega)
        simp [asLoop, htake, hdrop]
      · subst ht
        have htake : rest.take 16 = rest := List.take_of_length_le (by omega)
        have hdrop : rest.drop 16 = [] := List.drop_eq_nil_of_le (by omega)
        simp [asLoop, htake, hdrop]
  | cons c cs ih =>
    intro acc fuel t rest hwf ht hf
    simp only [List.map_cons, List.flatten_cons, List.append_assoc] at hf ⊢
    have hcw : c.WF := hwf c (by simp)
    have hwl : 1 ≤ c.wire.length := by cases c <;> simp [AddrChunk.wire]
    cases fuel with
    | zero => simp at hf
    | succ f =>
      rw [asLoop_chunk c hcw acc _ f (by simpa using hf)]
      rw [ih (acc ++ [c.addr]) f t rest (fun x hx => hwf x (by simp [hx])) ht
        (by simp at hf ⊢; omega)]
      simp

/-! ### Theorems -/

/-- Standard test vector: the SHA-256 digest of the empty message. -/
theorem sha256_empty :
    sha256 [] =
    [0xe3, 0xb0, 0xc4, 0x42, 0x98, 0xfc, 0x1c, 0x14,
     0x9a, 0xfb, 0xf4, 0xc8, 0x99, 0x6f, 0xb9, 0x24,
     0x27, 0xae, 0x41, 0xe4, 0x64, 0x9b, 0x93, 0x4c,
     0xa4, 0x95, 0x99, 0x1b, 0x78, 0x52, 0xb8, 0x55] := by
  decide

/-- C1. The round-trip property fails on the code: for the valid record
`c1rec` (two key-share entries with distinct groups, hence non-empty and
duplicate-free), `decode(encode r)` does not return `r` — the key-share
list parser advances its cursor by `Size() + 1` and reads the second
entry one byte late, failing with a truncated-entry error. -/
theorem c1_roundtrip_failure :
    (c1rec.keys.map KeyShareEntry.group).Nodup ∧ c1rec.keys ≠ [] ∧
    roundTrip c1rec =
      .err (.wrap "unmarshal key share list" (.wrap "unmarshal key share entry"
        (.wrap "buffer is too small for key share entry" .unexpectedEOF))) := by
  refine ⟨by decide, by decide, by decide⟩

/-- C2. The extension-list encoder does not produce the claimed bytes:
for a one-element list whose declared size is 7, it emits 19 bytes — the
7 zero bytes of the pre-filled buffer, the type tag, and a payload that
itself begins with the 5 zero bytes of the address set's own pre-filled
buffer. -/
theorem c2_extension_list_marshal_bug :
    ExtensionList.MarshalBinary [c2ext] =
      .ok [0, 0, 0, 0, 0, 0, 0, 16, 1, 0, 0, 0, 0, 0, 4, 1, 2, 3, 4] ∧
    ExtensionList.Size [c2ext] = 7 ∧
    ([0, 0, 0, 0, 0, 0, 0, 16, 1, 0, 0, 0, 0, 0, 4, 1, 2, 3, 4] : List Nat).length ≠ 7 := by
  refine ⟨by decide, by decide, by decide⟩

/-- C3. Encoding the address set {1.2.3.4, ::1} yields the 22-byte
sequence of the claim only *after* 22 spurious zero bytes from the
pre-filled buffer; decoding the bare 22-byte sequence does yield the two
addresses in order. -/
theorem c3_address_set_literal :
    c3set.MarshalBinary = .ok (List.replicate 22 0 ++ c3seq) ∧
    List.replicate 22 0 ++ c3seq ≠ c3seq ∧
    AddressSet.UnmarshalBinary ⟨[]⟩ c3seq = .ok c3set := by
  refine ⟨by decide, by decide, by decide⟩

/-- C4. A stream of two well-formed entries with the same group does not
fail with the duplicate-group error: the `Size() + 1` cursor advance
skips the second entry's first byte, so the decode fails with a
truncated-entry error instead. -/
theorem c4_duplicate_not_detected :
    KeyShareEntry.UnmarshalBinary [0, 23, 0, 0] = .ok ⟨23, []⟩ ∧
    KeyShareEntryList.UnmarshalBinary [] [0, 23, 0, 0, 0, 23, 0, 0] =
      .err (.wrap "unmarshal key share entry"
        (.wrap "buffer is too small for key share entry" .unexpectedEOF)) ∧
    KeyShareEntryList.UnmarshalBinary [] [0, 23, 0, 0, 0, 23, 0, 0] ≠
      .err (.msg "duplicate key share group") := by
  refine ⟨by decide, by decide, by decide⟩

/-- C5. Decoding the empty buffer (shorter than the 6-byte header) does
not return an error: reading the version with `binary.BigEndian.Uint16`
indexes past the end of the buffer and panics. -/
theorem c5_short_buffer_panics :
    (Keys.UnmarshalBinary emptyKeys []).1 = .panic ∧
    (List.length ([] : List Nat)) < 6 := by
  exact ⟨rfl, by decide⟩

/-- C6 counterexample. Decode does not leave the caller's buffer
unchanged: on `[0,0,1,1,1,1]` the checksum bytes 2–5 are zeroed in the
caller's buffer itself. -/
theorem c6_buffer_mutated :
    (Keys.UnmarshalBinary emptyKeys [0, 0, 1, 1, 1, 1]).2 ≠ [0, 0, 1, 1, 1, 1] := by
  decide

/-- C6 amended. Decode mutates the caller's buffer in place: unless the
buffer is too short even for the version read (< 2 bytes, where decode
panics before touching it), the buffer after decode equals the input
with (up to) four checksum bytes at positions 2–5 zeroed and every other
byte unchanged. -/
theorem c6_buffer_effect (k : Keys) (b : List Nat) :
    (Keys.UnmarshalBinary k b).2 =
      if b.length < 2 then b
      else b.take 2 ++ List.replicate (min 4 (b.length - 2)) 0 ++ b.drop 6 := by
  by_cases h : b.length < 2
  · simp [Keys.UnmarshalBinary, h]
  · simp [Keys.UnmarshalBinary, h]

/-- C7. Version gating of the hostname section: with a pre-draft-03
version a record with a non-empty hostname encodes successfully and the
hostname section contributes no bytes; with a draft-03 version and an
empty hostname, encoding fails with the empty-public-name error. -/
theorem c7_version_gating (k : Keys) :
    (k.version < VersionDraft03 → k.publicName ≠ [] → k.keys ≠ [] →
      (∀ e ∈ k.keys, e.keyExchange.length ≤ 65531) →
      Keys.marshalPublicName k = .ok [] ∧ ∃ bs, Keys.MarshalBinary k = .ok bs) ∧
    (VersionDraft03 ≤ k.version → k.publicName = [] →
      Keys.MarshalBinary k =
        .err (.wrap "marshal public name" (.msg "public name is empty"))) := by
  constructor
  · intro hv _ hks hsz
    have hpn : Keys.marshalPublicName k = .ok [] := by
      simp [Keys.marshalPublicName, hv]
    refine ⟨hpn, ?_⟩
    obtain ⟨ld, hld⟩ :=
      ksMarshalGo_ok k.keys (List.replicate (KeyShareEntryList.Size k.keys) 0) 0 hsz
    have hkl : Keys.marshalKeyShareList k =
        .ok (u16be (KeyShareEntryList.Size k.keys) ++ ld) := by
      have h0 : ¬ k.keys.length = 0 := by
        simpa using (List.length_pos.mpr hks).ne'
      simp [Keys.marshalKeyShareList, h0, KeyShareEntryList.MarshalBinary, hld]
    obtain ⟨ep, hep⟩ := extsMarshalParts_ok k.extensions
    obtain ⟨xb, hxb⟩ : ∃ xb, Keys.marshalExtensions k = .ok xb := by
      by_cases h0 : k.extensions.length = 0
      · simp only [Keys.marshalExtensions, h0, Result.pure_eq, if_pos]
        exact ⟨_, rfl⟩
      · simp only [Keys.marshalExtensions, h0, ExtensionList.MarshalBinary, hep,
          Result.bind_ok, Result.pure_eq, if_false, ite_false]
        exact ⟨_, rfl⟩
    simp only [Keys.MarshalBinary, hpn, hkl, hxb, Keys.marshalCipherSuites,
      Keys.marshalValidityPeriod, Result.context_ok, Result.bind_ok, Result.pure_eq]
    exact ⟨_, rfl⟩
  · intro hv hpn
    have hpe : Keys.marshalPublicName k = .err (.msg "public name is empty") := by
      rw [Keys.marshalPublicName, if_neg (by omega), if_pos (by simp [hpn])]
    simp [Keys.MarshalBinary, hpe]

/-- C7 witness: the two halves of `c7_version_gating` at the concrete
records `c7k1` and `c7k2`. -/
theorem c7_version_gating_witness :
    (Keys.marshalPublicName c7k1 = .ok [] ∧ ∃ bs, Keys.MarshalBinary c7k1 = .ok bs) ∧
    Keys.MarshalBinary c7k2 =
      .err (.wrap "marshal public name" (.msg "public name is empty")) :=
  ⟨(c7_version_gating c7k1).1 (by decide) (by decide) (by decide) (by decide),
   (c7_version_gating c7k2).2 (by decide) rfl⟩

/-- C8. A cipher-suite list whose 2-byte length prefix is odd fails with
the invalid-list-size error immediately after the prefix is read — in
particular even when (as here, where only three suite bytes follow) the
declared identifiers are not all present, showing no identifier is
read. -/
theorem c8_odd_cipher_list_size (k : Keys) (a b : Nat) (t : List Nat)
    (hodd : (256 * a + b) % 2 = 1) :
    Keys.unmarshalCipherSuites k (a :: b :: t) =
      .err (.msg "invalid cipher suite list size") := by
  have hbe : beVal ((a :: b :: t).take 2) = 256 * a + b := by
    simp [beVal]
    ring
  simp only [Keys.unmarshalCipherSuites, readBE]
  rw [if_neg (by simp), if_neg (by simp)]
  simp only [Result.context_ok, Result.bind_ok, hbe]
  rw [if_pos (by omega)]

/-- C8 witness: decoding `00 05 13 01 13` fails with the
invalid-list-size error. -/
theorem c8_odd_cipher_list_size_witness :
    (256 * 0 + 5) % 2 = 1 ∧
    Keys.unmarshalCipherSuites emptyKeys [0, 5, 19, 1, 19] =
      .err (.msg "invalid cipher suite list size") :=
  ⟨by decide, c8_odd_cipher_list_size emptyKeys 0 5 [19, 1, 19] (by decide)⟩

/-- C9 counterexample. A tag byte of 4 followed by only two bytes does
not fail: decode succeeds and returns the zero-padded address
`1.2.0.0`. -/
theorem c9_truncated_address_accepted :
    AddressSet.UnmarshalBinary ⟨[]⟩ [4, 1, 2] = .ok ⟨[[1, 2, 0, 0]]⟩ := by
  decide

/-- C9 amended. For every address-set payload consisting of complete
well-formed groups followed by a tag byte with fewer remaining bytes
than the tag requires, decode does not fail: it returns the addresses of
the complete groups followed by the final address zero-padded to its
family's length. -/
theorem c9_truncated_address_zero_padded (chunks : List AddrChunk) (t : Nat)
    (rest : List Nat) (hwf : ∀ c ∈ chunks, c.WF)
    (ht : (t = 4 ∧ rest.length < 4) ∨ (t = 6 ∧ rest.length < 16)) :
    AddressSet.UnmarshalBinary ⟨[]⟩
        ((chunks.map AddrChunk.wire).flatten ++ t :: rest) =
      .ok ⟨chunks.map AddrChunk.addr ++
        [(rest ++ List.replicate (if t = 4 then 4 else 16) 0).take
          (if t = 4 then 4 else 16)]⟩ := by
  unfold AddressSet.UnmarshalBinary
  rw [asLoop_truncated_tail chunks [] _ t rest hwf ht (le_refl _)]
  simp [Result.map]

/-- C9 amended witness: one complete IPv4 group then a truncated one. -/
theorem c9_truncated_address_zero_padded_witness :
    AddressSet.UnmarshalBinary ⟨[]⟩ [4, 9, 9, 9, 9, 4, 1, 2] =
      .ok ⟨[[9, 9, 9, 9], [1, 2, 0, 0]]⟩ := by
  simpa using c9_truncated_address_zero_padded [.v4 [9, 9, 9, 9]] 4 [1, 2]
    (by intro c hc; simp at hc; subst hc; exact rfl) (by decide)

/-- C10 counterexample. The entry-level codec does not round-trip for
every key-exchange slice of length at most 65535: at length 65532 the
uint16 size wraps to 0 and `MarshalBinary` panics slicing its
buffer, so no bytes are produced at all. -/
theorem c10_large_entry_marshal_panics :
    (List.replicate 65532 (0 : Nat)).length ≤ 65535 ∧
    KeyShareEntry.MarshalBinary ⟨29, List.replicate 65532 0⟩ = .panic ∧
    ¬ ∃ bs, KeyShareEntry.MarshalBinary ⟨29, List.replicate 65532 0⟩ = .ok bs := by
  have hm : KeyShareEntry.MarshalBinary ⟨29, List.replicate 65532 0⟩ = .panic :=
    entry_marshal_panics_of_len (List.replicate 65532 0) (by rw [List.length_replicate])
  refine ⟨?_, hm, ?_⟩
  · rw [List.length_replicate]
    omega
  · rintro ⟨bs, hbs⟩
    rw [hm] at hbs
    exact Result.noConfusion hbs

/-- C10 amended. For every entry whose group is a uint16 value and whose
key-exchange slice has length at most 65531 (so that the uint16 size
`len + 4` does not wrap), marshalling succeeds and unmarshalling the
produced bytes restores the group and the key-exchange bytes exactly. -/
theorem c10_entry_roundtrip (g : Nat) (kx : List Nat) (hg : g < 65536)
    (hlen : kx.length ≤ 65531) :
    KeyShareEntry.MarshalBinary ⟨g, kx⟩ = .ok (u16be g ++ u16be kx.length ++ kx) ∧
    KeyShareEntry.UnmarshalBinary (u16be g ++ u16be kx.length ++ kx) = .ok ⟨g, kx⟩ := by
  have hsz : KeyShareEntry.Size ⟨g, kx⟩ = kx.length + 4 := by
    simp only [KeyShareEntry.Size]
    omega
  have hdl : (u16be g ++ u16be kx.length ++ kx).length = kx.length + 4 := by
    simp [u16be]
  constructor
  · simp only [KeyShareEntry.MarshalBinary, hsz]
    rw [if_neg (by omega)]
    have h4 : kx.length + 4 - 4 = kx.length := by omega
    rw [h4, List.take_append_eq_append_take, List.take_of_length_le (le_refl _)]
    simp
  · simp only [KeyShareEntry.UnmarshalBinary]
    rw [if_neg (by omega)]
    have hdrop2 : (u16be g ++ u16be kx.length ++ kx).drop 2 = u16be kx.length ++ kx := by
      simp [u16be]
    have hkl : readU16 ((u16be g ++ u16be kx.length ++ kx).drop 2) = kx.length := by
      rw [hdrop2, readU16_u16be_append _ _ (by omega)]
    rw [hkl, if_neg (by omega)]
    have hg16 : readU16 (u16be g ++ u16be kx.length ++ kx) = g := by
      rw [List.append_assoc, readU16_u16be_append _ _ hg]
    have hdrop4 : (u16be g ++ u16be kx.length ++ kx).drop 4 = kx := by
      simp [u16be]
    rw [hg16, hdrop4, List.take_of_length_le (le_refl _)]

/-- C10 amended witness at a small concrete entry. -/
theorem c10_entry_roundtrip_witness :
    KeyShareEntry.MarshalBinary ⟨29, [171, 205]⟩ =
      .ok (u16be 29 ++ u16be 2 ++ [171, 205]) ∧
    KeyShareEntry.UnmarshalBinary (u16be 29 ++ u16be 2 ++ [171, 205]) =
      .ok ⟨29, [171, 205]⟩ :=
  c10_entry_roundtrip 29 [171, 205] (by decide) (by decide)

end ESNI
